import Mathlib

/-!
TEMPL-parallel: the `TaskDistributor` range partition and the `ThreadManager` life cycle

Shallow embedding of `src/src/parallel.h`.

* `TaskDistributor.getDistributedSize32` / `getDistributedOffset32` embed the source
  functions over 32-bit two's-complement `int`: every arithmetic operation of the
  source is one `arith32` step that wraps its result and records whether the exact
  result had left the `int` range (C++ `/` and `%` are `Int.tdiv` and `Int.tmod`, which
  truncate toward zero). `getDistributedSize` / `getDistributedOffset` are the same
  expressions read over exact integers; they agree with the source where no step
  overflows.
* `ThreadManager`'s member functions are only declared in `parallel.h`; the
  controller-side life cycle is modelled from the specification.
-/

namespace TaskDistributor

/-! ## Exact-integer embedding -/

/-- The expression of `TaskDistributor::getDistributedSize` (parallel.h, lines 268-271),
`int n = last - first + 1; return (n / N) + ((n % N > i) ? 1 : 0);`, read over exact
integers. This is the value of the source only where no step leaves the `int` range;
the source itself is `getDistributedSize32`. `N = 0` is undefined behaviour in the
source and outside every statement below (Lean's `Int.tdiv x 0` is `0`). -/
def getDistributedSize (i N first last : Int) : Int :=
  let n := last - first + 1
  (n.tdiv N) + (if n.tmod N > i then 1 else 0)

/-- The expression of `TaskDistributor::getDistributedOffset` (parallel.h, lines
274-278), `int n = last - first + 1; int offset = (n / N) * i + ((n % N > i) ? i : n % N);
return offset + first;`, read over exact integers. This is the value of the source only
where no step leaves the `int` range; the source itself is `getDistributedOffset32`. -/
def getDistributedOffset (i N first last : Int) : Int :=
  let n := last - first + 1
  let offset := (n.tdiv N) * i + (if n.tmod N > i then i else n.tmod N)
  offset + first

/-- The integer `x` lies in shard `i` of the exact-integer reading, the inclusive
interval `[offset(i), offset(i) + size(i) - 1]`. -/
def inShard (x i N first last : Int) : Prop :=
  getDistributedOffset i N first last ≤ x ∧
    x ≤ getDistributedOffset i N first last + getDistributedSize i N first last - 1

instance (x i N first last : Int) : Decidable (inShard x i N first last) := by
  unfold inShard; infer_instance

/-! ## 32-bit embedding -/

/-- Smallest value of a 32-bit `int`. -/
def INT_MIN : Int := -2147483648

/-- Largest value of a 32-bit `int`. -/
def INT_MAX : Int := 2147483647

/-- Reduction of an exact integer to its 32-bit two's-complement representative. -/
def wrap32 (x : Int) : Int := (x + 2147483648) % 4294967296 - 2147483648

/-- One `int` arithmetic operation whose exact result is `x`: the stored value is
`wrap32 x`, and the flag (threaded through the computation) becomes `true` once an
exact result has left `[INT_MIN, INT_MAX]`. -/
def arith32 (overflowed : Bool) (x : Int) : Int × Bool :=
  (wrap32 x, overflowed || decide (x < INT_MIN ∨ INT_MAX < x))

/-- The function `getDistributedSize` with `int` as 32-bit two's complement: the steps
are `last - first`, `+ 1`, `n / N`, `n % N` and the final sum, in source order. Returns
the value and whether some intermediate result left the `int` range. -/
def getDistributedSize32 (i N first last : Int) : Int × Bool :=
  let d := arith32 false (last - first)
  let n := arith32 d.2 (d.1 + 1)
  let q := arith32 n.2 (n.1.tdiv N)
  let r := arith32 q.2 (n.1.tmod N)
  arith32 r.2 (q.1 + (if r.1 > i then 1 else 0))

/-- The function `getDistributedOffset` with `int` as 32-bit two's complement: the
steps are `last - first`, `+ 1`, `n / N`, `(n / N) * i`, `n % N`, the sum with the
remainder term, and the final `+ first`. Returns the value and whether some
intermediate result left the `int` range. -/
def getDistributedOffset32 (i N first last : Int) : Int × Bool :=
  let d := arith32 false (last - first)
  let n := arith32 d.2 (d.1 + 1)
  let q := arith32 n.2 (n.1.tdiv N)
  let p := arith32 q.2 (q.1 * i)
  let r := arith32 p.2 (n.1.tmod N)
  let offset := arith32 r.2 (p.1 + (if r.1 > i then i else r.1))
  arith32 offset.2 (offset.1 + first)

/-- The integer `x` lies in shard `i` as the source computes it: the inclusive interval
`[offset(i), offset(i) + size(i) - 1]` of the values returned by the 32-bit functions. -/
def inShard32 (x i N first last : Int) : Prop :=
  (getDistributedOffset32 i N first last).1 ≤ x ∧
    x ≤ (getDistributedOffset32 i N first last).1
          + (getDistributedSize32 i N first last).1 - 1

instance (x i N first last : Int) : Decidable (inShard32 x i N first last) := by
  unfold inShard32; infer_instance

end TaskDistributor

namespace ThreadManager

/-! ## Controller-side life cycle of `ThreadManager`

`parallel.h` only declares the members of `ThreadManager` (fields `threads`,
`workFunction`, `started`; `startThreads`, the constructor, the destructor, `run`,
`runAsync`, `wait`); their bodies are not part of the given sources. The definitions
below follow section 4.4 of the specification and record, in order, the effects the
controller thread performs. -/

/-- Identifier standing for a `ThreadFunction` pointer. -/
abbrev ThreadFunction := Nat

/-- The effects the controller performs on the threading layer. -/
inductive Effect where
  /-- creation of the worker thread with this `thread_id` -/
  | spawn (thread_id : Nat)
  /-- one call of `barrier.wait()` by the controller -/
  | barrierWait
  /-- join of the worker thread with this `thread_id` -/
  | join (thread_id : Nat)
  deriving DecidableEq

/-- Modelled from the spec: the state of `ThreadManager` seen by the controller
(`threads`, `workFunction`, `started`, as declared in parallel.h lines 188-195), with
the sequence of effects performed so far. The bodies of the member functions are
missing from the sources. -/
structure State where
  threads : Nat
  workFunction : Option ThreadFunction
  started : Bool
  effects : List Effect
  deriving DecidableEq

/-- Modelled from the spec: the body of the constructor `ThreadManager(int)` is
missing. "Set current_task = null, started = false. Threads are NOT spawned yet." -/
def construct (numberOfThreads : Nat) : State :=
  { threads := numberOfThreads, workFunction := none, started := false, effects := [] }

/-- Modelled from the spec: the body of `ThreadManager::startThreads` is missing.
"First dispatch sets started = true and spawns N workers", worker `i` with
`thread_id = i`. -/
def startThreads (s : State) : State :=
  { s with started := true, effects := s.effects ++ (List.range s.threads).map Effect.spawn }

/-- Modelled from the spec: the body of `ThreadManager::wait` is missing. "Performs the
completion-side barrier.wait()": one barrier traversal by the controller. -/
def wait (s : State) : State :=
  { s with effects := s.effects ++ [Effect.barrierWait] }

/-- Modelled from the spec: the body of `ThreadManager::runAsync` is missing. "Store f
into current_task. On first call, spawn workers. barrier.wait()", without the second
(completion) traversal. -/
def runAsync (function : ThreadFunction) (s : State) : State :=
  let s1 := { s with workFunction := some function }
  let s2 := if s1.started then s1 else startThreads s1
  wait s2

/-- Modelled from the spec: the body of `ThreadManager::run` is missing. The dispatch
of `runAsync` followed by the completion-side `barrier.wait()`. -/
def run (function : ThreadFunction) (s : State) : State :=
  wait (runAsync function s)

/-- Modelled from the spec: the body of the destructor is missing. "If started: set
current_task = null, perform one barrier.wait(), and join all worker handles." -/
def destroy (s : State) : State :=
  if s.started then
    let s1 := wait { s with workFunction := none }
    { s1 with effects := s1.effects ++ (List.range s.threads).map Effect.join }
  else s

/-- The calls the controller can make on a live `ThreadManager`. -/
inductive Call where
  | run (function : ThreadFunction)
  | runAsync (function : ThreadFunction)
  | wait
  deriving DecidableEq

/-- Whether a call is a dispatch (`run` or `runAsync`). -/
def Call.isDispatch : Call → Bool
  | .run _ => true
  | .runAsync _ => true
  | .wait => false

/-- The effect of one call on the state. -/
def Call.apply : Call → State → State
  | .run f, s => ThreadManager.run f s
  | .runAsync f, s => ThreadManager.runAsync f s
  | .wait, s => ThreadManager.wait s

/-- A sequence of calls, executed from left to right. -/
def exec : List Call → State → State
  | [], s => s
  | c :: cs, s => exec cs (c.apply s)

/-- The `thread_id`s of the workers spawned so far, in spawn order. -/
def spawned (s : State) : List Nat :=
  s.effects.filterMap fun e => match e with
    | .spawn i => some i
    | _ => none

/-- The relation between `started` and the workers spawned so far that every call
preserves: none before the first dispatch, the workers `0, ..., threads - 1` after. -/
def Consistent (s : State) : Prop :=
  spawned s = if s.started then List.range s.threads else []

end ThreadManager

namespace TaskDistributor

/-! ## Helper lemmas -/

/-- For a non-negative dividend and positive divisor, the truncating quotient and
remainder of the source are the Euclidean ones. -/
theorem tdiv_tmod_facts (n N : Int) (hn : 0 ≤ n) (hN : 1 ≤ N) :
    n.tdiv N = n / N ∧ n.tmod N = n % N ∧ 0 ≤ n / N ∧ 0 ≤ n % N ∧ n % N < N ∧
      N * (n / N) + n % N = n := by
  refine ⟨Int.tdiv_eq_ediv hn (by omega), Int.tmod_eq_emod hn (by omega),
    Int.ediv_nonneg hn (by omega), Int.emod_nonneg _ (by omega),
    Int.emod_lt_of_pos _ (by omega), Int.ediv_add_emod n N⟩

theorem size_eq (i N first last : Int) (hN : 1 ≤ N) (hn : first - 1 ≤ last) :
    getDistributedSize i N first last
      = (last - first + 1) / N + (if i < (last - first + 1) % N then 1 else 0) := by
  obtain ⟨hq, hr, -⟩ := tdiv_tmod_facts (last - first + 1) N (by omega) hN
  simp only [getDistributedSize, hq, hr, gt_iff_lt]

theorem offset_eq (i N first last : Int) (hN : 1 ≤ N) (hn : first - 1 ≤ last) :
    getDistributedOffset i N first last
      = (last - first + 1) / N * i + min i ((last - first + 1) % N) + first := by
  obtain ⟨hq, hr, -⟩ := tdiv_tmod_facts (last - first + 1) N (by omega) hN
  simp only [getDistributedOffset, hq, hr, gt_iff_lt]
  split_ifs with h
  · rw [min_eq_left (le_of_lt h)]
  · rw [min_eq_right (not_lt.mp h)]

theorem offset_succ (i N first last : Int) :
    getDistributedOffset (i + 1) N first last
      = getDistributedOffset i N first last + getDistributedSize i N first last := by
  simp only [getDistributedOffset, getDistributedSize]
  generalize (last - first + 1).tdiv N = q
  generalize (last - first + 1).tmod N = r
  have hmul : q * (i + 1) = q * i + q := by ring
  rw [hmul]
  split_ifs <;> omega

theorem offset_zero (N first last : Int) (hN : 1 ≤ N) (hn : first - 1 ≤ last) :
    getDistributedOffset 0 N first last = first := by
  obtain ⟨-, hr, -, hr0, -⟩ := tdiv_tmod_facts (last - first + 1) N (by omega) hN
  simp only [getDistributedOffset, hr, mul_zero]
  split_ifs <;> omega

theorem offset_last (N first last : Int) (hN : 1 ≤ N) (hn : first - 1 ≤ last) :
    getDistributedOffset N N first last = last + 1 := by
  obtain ⟨hq, hr, -, -, hrN, hdiv⟩ := tdiv_tmod_facts (last - first + 1) N (by omega) hN
  simp only [getDistributedOffset, hq, hr]
  rw [mul_comm, if_neg (by omega)]
  omega

theorem size_nonneg (i N first last : Int) (hN : 1 ≤ N) (hn : first - 1 ≤ last) :
    0 ≤ getDistributedSize i N first last := by
  obtain ⟨hq, -, hq0, -⟩ := tdiv_tmod_facts (last - first + 1) N (by omega) hN
  simp only [getDistributedSize, hq]
  split_ifs <;> omega

end TaskDistributor

namespace TaskDistributor

/-! ## The closed formulas -/

/-- Over exact integers, for `N ≥ 1` and `n = last - first + 1 ≥ 0`, the size is
`⌊n / N⌋ + 1` when `i < n mod N` and `⌊n / N⌋` otherwise (floor division and floor
modulus). -/
theorem exact_size_formula (i N first last : Int) (hN : N ≥ 1)
    (hn : last ≥ first - 1) (hi0 : 0 ≤ i) (hiN : i < N) :
    getDistributedSize i N first last
      = Int.fdiv (last - first + 1) N
          + (if i < Int.fmod (last - first + 1) N then 1 else 0) := by
  have _hi := And.intro hi0 hiN
  rw [Int.fdiv_eq_ediv _ (by omega), Int.fmod_eq_emod _ (by omega)]
  exact size_eq i N first last hN hn

/-- Over exact integers, for `N ≥ 1` and `n = last - first + 1 ≥ 0`, the offset is
`⌊n / N⌋ * i + min i (n mod N) + first`. -/
theorem exact_offset_formula (i N first last : Int) (hN : N ≥ 1)
    (hn : last ≥ first - 1) (hi0 : 0 ≤ i) (hiN : i < N) :
    getDistributedOffset i N first last
      = Int.fdiv (last - first + 1) N * i + min i (Int.fmod (last - first + 1) N)
          + first := by
  have _hi := And.intro hi0 hiN
  rw [Int.fdiv_eq_ediv _ (by omega), Int.fmod_eq_emod _ (by omega)]
  exact offset_eq i N first last hN hn

/-- The shard sizes and offsets of the specification's scenarios, as the source returns
them: `N = 3` over `[0, 9]` gives sizes `[4, 3, 3]` and offsets `[0, 4, 7]`; `N = 5`
over `[10, 10]` gives sizes `[1, 0, 0, 0, 0]` and offsets `[10, 11, 11, 11, 11]`. -/
theorem scenario_values :
    [0, 1, 2].map (fun i => getDistributedSize32 i 3 0 9)
      = [(4, false), (3, false), (3, false)] ∧
    [0, 1, 2].map (fun i => getDistributedOffset32 i 3 0 9)
      = [(0, false), (4, false), (7, false)] ∧
    [0, 1, 2, 3, 4].map (fun i => getDistributedSize32 i 5 10 10)
      = [(1, false), (0, false), (0, false), (0, false), (0, false)] ∧
    [0, 1, 2, 3, 4].map (fun i => getDistributedOffset32 i 5 10 10)
      = [(10, false), (11, false), (11, false), (11, false), (11, false)] := by
  decide

end TaskDistributor

namespace TaskDistributor

/-! ## Small domains, balance and the round-trip law -/

/-- C9: for `N ≥ 1` and `0 ≤ n = last - first + 1 < N`, `getDistributedSize` is `1`
for every `i` in `[0, n)` and `0` for every `i` in `[n, N)`; in particular for `n = 0`
(`last = first - 1`) each of the `N` shards has size `0`. -/
theorem getDistributedSize_small_domain (N first last : Int) (hN : N ≥ 1)
    (hn0 : 0 ≤ last - first + 1) (hnN : last - first + 1 < N) :
    (∀ i : Int, 0 ≤ i → i < last - first + 1 → getDistributedSize i N first last = 1) ∧
    (∀ i : Int, last - first + 1 ≤ i → i < N → getDistributedSize i N first last = 0) ∧
    (last = first - 1 →
      ∀ i : Int, 0 ≤ i → i < N → getDistributedSize i N first last = 0) := by
  have hq : (last - first + 1) / N = 0 := Int.ediv_eq_zero_of_lt hn0 hnN
  have hr : (last - first + 1) % N = last - first + 1 := Int.emod_eq_of_lt hn0 hnN
  refine ⟨fun i _ hi => ?_, fun i hi _ => ?_, fun h i hi _ => ?_⟩
  · rw [size_eq i N first last hN (by omega), hq, hr, if_pos hi]; rfl
  · rw [size_eq i N first last hN (by omega), hq, hr, if_neg (by omega)]; rfl
  · rw [size_eq i N first last hN (by omega), hq, hr, if_neg (by omega)]; rfl

theorem getDistributedSize_small_domain_witness :
    (5 : Int) ≥ 1 ∧ (0 : Int) ≤ 10 - 10 + 1 ∧ (10 : Int) - 10 + 1 < 5 ∧
    ((∀ i : Int, 0 ≤ i → i < 10 - 10 + 1 → getDistributedSize i 5 10 10 = 1) ∧
     (∀ i : Int, 10 - 10 + 1 ≤ i → i < 5 → getDistributedSize i 5 10 10 = 0) ∧
     ((10 : Int) = 10 - 1 →
       ∀ i : Int, 0 ≤ i → i < 5 → getDistributedSize i 5 10 10 = 0)) :=
  ⟨by decide, by decide, by decide,
    getDistributedSize_small_domain 5 10 10 (by decide) (by decide) (by decide)⟩

/-- Over exact integers, two shard sizes differ by at most `1` and the size is
non-increasing in the index. -/
theorem exact_size_balanced (i j N first last : Int) (hN : N ≥ 1)
    (hn : last ≥ first - 1) (hi0 : 0 ≤ i) (hiN : i < N) (hj0 : 0 ≤ j) (hjN : j < N) :
    |getDistributedSize i N first last - getDistributedSize j N first last| ≤ 1 ∧
    (i ≤ j → getDistributedSize i N first last ≥ getDistributedSize j N first last) := by
  have _h := And.intro (And.intro hi0 hiN) (And.intro hj0 hjN)
  rw [size_eq i N first last hN hn, size_eq j N first last hN hn, abs_le]
  generalize (last - first + 1) / N = q
  generalize (last - first + 1) % N = r
  refine ⟨?_, fun hij => ?_⟩ <;> split_ifs <;> omega

/-- Over exact integers, `offset(i) + size(i) = offset(i + 1)` for every `i` in
`[0, N - 1)`, and `offset(N - 1) + size(N - 1) = last + 1`. -/
theorem exact_round_trip (N first last : Int) (hN : N ≥ 1) (hn : last ≥ first - 1) :
    (∀ i : Int, 0 ≤ i → i < N - 1 →
      getDistributedOffset i N first last + getDistributedSize i N first last
        = getDistributedOffset (i + 1) N first last) ∧
    getDistributedOffset (N - 1) N first last + getDistributedSize (N - 1) N first last
      = last + 1 := by
  refine ⟨fun i _ _ => (offset_succ i N first last).symm, ?_⟩
  rw [← offset_succ, sub_add_cancel]
  exact offset_last N first last hN (by omega)

end TaskDistributor

namespace TaskDistributor

/-! ## 32-bit arithmetic -/

/-- An operation whose exact result is in the `int` range stores that result and
leaves the overflow flag unchanged. -/
theorem arith32_eq (o : Bool) (x : Int) (h1 : INT_MIN ≤ x) (h2 : x ≤ INT_MAX) :
    arith32 o x = (x, o) := by
  unfold INT_MIN at h1
  unfold INT_MAX at h2
  have hw : wrap32 x = x := by unfold wrap32; omega
  have hd : decide (x < INT_MIN ∨ INT_MAX < x) = false := by
    rw [decide_eq_false_iff_not]; unfold INT_MIN INT_MAX; omega
  simp only [arith32, hw, hd, Bool.or_false]

/-- Bounds on the intermediate values of both functions, for `n = N * q + r ≥ 0`
split by a divisor `N ≥ 1` and an index `0 ≤ i < N`. -/
theorem intermediates_bounds (i N q r : Int) (hi0 : 0 ≤ i) (hiN : i < N) (hq0 : 0 ≤ q) :
    0 ≤ q * i ∧ q * i + q ≤ N * q ∧ (i < r → q + 1 ≤ N * q + r) := by
  have h1 : 0 ≤ q * i := mul_nonneg hq0 hi0
  have h2 : q * (i + 1) ≤ q * N := mul_le_mul_of_nonneg_left (by omega) hq0
  have h3 : q * (i + 1) = q * i + q := by ring
  have h4 : q * N = N * q := mul_comm q N
  have h5 : q * 1 ≤ q * N := mul_le_mul_of_nonneg_left (by omega) hq0
  refine ⟨h1, by omega, fun _ => by omega⟩

/-- C10: with `int` as 32-bit two's complement, for `N ≥ 1`, `0 ≤ i < N`, `first` and
`last` in the `int` range, `0 ≤ last - first + 1 ≤ INT_MAX` (exact) and
`last < INT_MAX`, no arithmetic step of `getDistributedSize` or `getDistributedOffset`
leaves the `int` range (the overflow flag stays `false`) and both return the values of
their exact-integer definitions. -/
theorem no_overflow (i N first last : Int) (hN : N ≥ 1) (hi0 : 0 ≤ i) (hiN : i < N)
    (hf1 : INT_MIN ≤ first) (hf2 : first ≤ INT_MAX) (hl1 : INT_MIN ≤ last)
    (hl2 : last < INT_MAX) (hn0 : 0 ≤ last - first + 1)
    (hn1 : last - first + 1 ≤ INT_MAX) :
    getDistributedSize32 i N first last = (getDistributedSize i N first last, false) ∧
    getDistributedOffset32 i N first last
      = (getDistributedOffset i N first last, false) := by
  unfold INT_MIN at hf1 hl1
  unfold INT_MAX at hf2 hl2 hn1
  obtain ⟨hq, hr, hq0, hr0, hrN, hdiv⟩ := tdiv_tmod_facts (last - first + 1) N hn0 hN
  obtain ⟨hb1, hb2, hb3⟩ :=
    intermediates_bounds i N ((last - first + 1) / N) ((last - first + 1) % N) hi0 hiN
      hq0
  have e1 : ∀ o, arith32 o (last - first) = (last - first, o) := fun o =>
    arith32_eq o _ (by unfold INT_MIN; omega) (by unfold INT_MAX; omega)
  have e2 : ∀ o, arith32 o (last - first + 1) = (last - first + 1, o) := fun o =>
    arith32_eq o _ (by unfold INT_MIN; omega) (by unfold INT_MAX; omega)
  have e3 : ∀ o, arith32 o ((last - first + 1) / N) = ((last - first + 1) / N, o) :=
    fun o => arith32_eq o _ (by unfold INT_MIN; omega) (by unfold INT_MAX; omega)
  have e4 : ∀ o, arith32 o ((last - first + 1) % N) = ((last - first + 1) % N, o) :=
    fun o => arith32_eq o _ (by unfold INT_MIN; omega) (by unfold INT_MAX; omega)
  have e5 : ∀ o, arith32 o ((last - first + 1) / N * i)
      = ((last - first + 1) / N * i, o) :=
    fun o => arith32_eq o _ (by unfold INT_MIN; omega) (by unfold INT_MAX; omega)
  constructor
  · simp only [getDistributedSize32, getDistributedSize, e1, e2, hq, hr, e3, e4]
    apply arith32_eq
    · unfold INT_MIN; split_ifs <;> omega
    · unfold INT_MAX; split_ifs with h
      · have := hb3 h; omega
      · omega
  · simp only [getDistributedOffset32, getDistributedOffset, e1, e2, hq, hr, e3, e4, e5]
    have e6 : ∀ o, arith32 o ((last - first + 1) / N * i
          + (if (last - first + 1) % N > i then i else (last - first + 1) % N))
        = ((last - first + 1) / N * i
          + (if (last - first + 1) % N > i then i else (last - first + 1) % N), o) :=
      fun o => arith32_eq o _ (by unfold INT_MIN; split_ifs <;> omega)
        (by unfold INT_MAX; split_ifs <;> omega)
    rw [e6]
    apply arith32_eq
    · unfold INT_MIN; split_ifs <;> omega
    · unfold INT_MAX; split_ifs <;> omega

theorem no_overflow_witness :
    (3 : Int) ≥ 1 ∧ (0 : Int) ≤ 2 ∧ (2 : Int) < 3 ∧
    INT_MIN ≤ -2147483648 ∧ (-2147483648 : Int) ≤ INT_MAX ∧ INT_MIN ≤ -2 ∧
    (-2 : Int) < INT_MAX ∧ (0 : Int) ≤ -2 - -2147483648 + 1 ∧
    (-2 : Int) - -2147483648 + 1 ≤ INT_MAX ∧
    (getDistributedSize32 2 3 (-2147483648) (-2)
        = (getDistributedSize 2 3 (-2147483648) (-2), false) ∧
     getDistributedOffset32 2 3 (-2147483648) (-2)
        = (getDistributedOffset 2 3 (-2147483648) (-2), false)) :=
  ⟨by decide, by decide, by decide, by decide, by decide, by decide, by decide,
    by decide, by decide,
    no_overflow 2 3 (-2147483648) (-2) (by decide) (by decide) (by decide) (by decide)
      (by decide) (by decide) (by decide) (by decide) (by decide)⟩

end TaskDistributor

namespace TaskDistributor

/-! ## The shards partition the domain -/

theorem offset_mono (i j N first last : Int) (hN : 1 ≤ N) (hn : first - 1 ≤ last)
    (hij : i ≤ j) :
    getDistributedOffset i N first last ≤ getDistributedOffset j N first last := by
  obtain ⟨hq, hr, hq0, hr0, -⟩ := tdiv_tmod_facts (last - first + 1) N (by omega) hN
  simp only [getDistributedOffset, hq, hr]
  have hmul : (last - first + 1) / N * i ≤ (last - first + 1) / N * j :=
    mul_le_mul_of_nonneg_left hij hq0
  split_ifs <;> omega

/-- Membership in shard `i` says that `x` lies from `offset(i)` up to, but not
including, `offset(i + 1)`. -/
theorem inShard_iff (x i N first last : Int) :
    inShard x i N first last ↔
      getDistributedOffset i N first last ≤ x ∧
        x < getDistributedOffset (i + 1) N first last := by
  rw [inShard, offset_succ]
  constructor <;> rintro ⟨h1, h2⟩ <;> exact ⟨h1, by omega⟩

/-- Every `x` from `first` up to below `offset(k)` lies in one of the shards
`0, ..., k - 1`. -/
theorem shard_exists (N first last : Int) (hN : 1 ≤ N) (hn : first - 1 ≤ last) (k : Nat)
    (x : Int) (hx1 : first ≤ x) (hx2 : x < getDistributedOffset k N first last) :
    ∃ i : Int, 0 ≤ i ∧ i < k ∧ inShard x i N first last := by
  induction k with
  | zero =>
    rw [Nat.cast_zero, offset_zero N first last hN hn] at hx2
    omega
  | succ k ih =>
    by_cases h : x < getDistributedOffset k N first last
    · obtain ⟨i, hi0, hik, hin⟩ := ih h
      exact ⟨i, hi0, by push_cast; omega, hin⟩
    · refine ⟨k, by omega, by push_cast; omega, ?_⟩
      rw [inShard_iff]
      push_cast at hx2
      exact ⟨not_lt.mp h, hx2⟩

/-- Two shards with indices `i < j` have no common element. -/
theorem shards_ordered (x i j N first last : Int) (hN : 1 ≤ N) (hn : first - 1 ≤ last)
    (hij : i < j) (hi : inShard x i N first last) (hj : inShard x j N first last) :
    False := by
  rw [inShard_iff] at hi hj
  have := offset_mono (i + 1) j N first last hN hn (by omega)
  omega

/-- Over exact integers, the `N` shards `[offset(i), offset(i) + size(i) - 1]`,
`0 ≤ i < N`, partition the integers of `[first, last]`. -/
theorem exact_partition (N first last : Int) (hN : N ≥ 1) (hn : last ≥ first - 1) :
    (∀ x : Int, first ≤ x → x ≤ last →
      ∃! i : Int, 0 ≤ i ∧ i < N ∧ inShard x i N first last) ∧
    (∀ i x : Int, 0 ≤ i → i < N → inShard x i N first last → first ≤ x ∧ x ≤ last) ∧
    (∀ i j x : Int, 0 ≤ i → i < N → 0 ≤ j → j < N → i ≠ j →
      ¬ (inShard x i N first last ∧ inShard x j N first last)) := by
  have hN1 : 1 ≤ N := hN
  have hn1 : first - 1 ≤ last := hn
  refine ⟨fun x hx1 hx2 => ?_, fun i x hi0 hiN hi => ?_, fun i j x _ _ _ _ hij h => ?_⟩
  · have hcast : ((N.toNat : Nat) : Int) = N := Int.toNat_of_nonneg (by omega)
    have hlt : x < getDistributedOffset (N.toNat : Nat) N first last := by
      rw [hcast, offset_last N first last hN1 hn1]; omega
    obtain ⟨i, hi0, hiN, hi⟩ := shard_exists N first last hN1 hn1 N.toNat x hx1 hlt
    rw [hcast] at hiN
    refine ⟨i, ⟨hi0, hiN, hi⟩, fun j hj => ?_⟩
    obtain ⟨_, _, hj⟩ := hj
    rcases lt_trichotomy j i with h | h | h
    · exact (shards_ordered x j i N first last hN1 hn1 h hj hi).elim
    · exact h
    · exact (shards_ordered x i j N first last hN1 hn1 h hi hj).elim
  · rw [inShard_iff] at hi
    have h0 := offset_mono 0 i N first last hN1 hn1 hi0
    have h1 := offset_mono (i + 1) N N first last hN1 hn1 (by omega)
    rw [offset_zero N first last hN1 hn1] at h0
    rw [offset_last N first last hN1 hn1] at h1
    omega
  · rcases lt_or_gt_of_ne hij with h' | h'
    · exact shards_ordered x i j N first last hN1 hn1 h' h.1 h.2
    · exact shards_ordered x j i N first last hN1 hn1 h' h.2 h.1

end TaskDistributor

namespace ThreadManager

/-! ## Worker threads are spawned by the first dispatch only -/

theorem spawned_wait (s : State) : spawned (wait s) = spawned s := by
  simp [spawned, wait, List.filterMap_append]

theorem spawned_startThreads (s : State) :
    spawned (startThreads s) = spawned s ++ List.range s.threads := by
  have h : List.filterMap
      (fun e => match e with
        | Effect.spawn i => some i
        | _ => none) ((List.range s.threads).map Effect.spawn) = List.range s.threads := by
    induction List.range s.threads with
    | nil => rfl
    | cons a l ih => simp only [List.map_cons, List.filterMap_cons, ih]
  simp only [spawned, startThreads, List.filterMap_append, h]

theorem consistent_wait (s : State) (h : Consistent s) : Consistent (wait s) := by
  unfold Consistent at *
  rw [spawned_wait, h]
  rfl

theorem consistent_runAsync (f : ThreadFunction) (s : State) (h : Consistent s) :
    Consistent (runAsync f s) ∧ (runAsync f s).started = true ∧
      (runAsync f s).threads = s.threads := by
  unfold Consistent at *
  cases hs : s.started with
  | true =>
    have e : runAsync f s = wait { s with workFunction := some f } := by
      simp [runAsync, hs]
    rw [e, spawned_wait]
    refine ⟨?_, by simp [wait, hs], by simp [wait]⟩
    have : spawned { s with workFunction := some f } = spawned s := rfl
    rw [this, h]
    simp [wait, hs]
  | false =>
    have e : runAsync f s = wait (startThreads { s with workFunction := some f }) := by
      simp [runAsync, hs]
    rw [e, spawned_wait, spawned_startThreads]
    refine ⟨?_, by simp [wait, startThreads], by simp [wait, startThreads]⟩
    have : spawned { s with workFunction := some f } = spawned s := rfl
    rw [this, h, hs]
    simp [wait, startThreads]

theorem consistent_apply (c : Call) (s : State) (h : Consistent s) :
    Consistent (c.apply s) ∧ (c.apply s).started = (s.started || c.isDispatch) ∧
      (c.apply s).threads = s.threads := by
  cases c with
  | run f =>
    obtain ⟨h1, h2, h3⟩ := consistent_runAsync f s h
    refine ⟨consistent_wait _ h1, ?_, ?_⟩
    · show (wait (runAsync f s)).started = _
      simp [wait, h2, Call.isDispatch]
    · show (wait (runAsync f s)).threads = _
      simp [wait, h3]
  | runAsync f =>
    obtain ⟨h1, h2, h3⟩ := consistent_runAsync f s h
    exact ⟨h1, by simp [Call.apply, h2, Call.isDispatch], h3⟩
  | wait =>
    exact ⟨consistent_wait s h, by simp [Call.apply, wait, Call.isDispatch],
      by simp [Call.apply, wait]⟩

theorem consistent_exec (calls : List Call) (s : State) (h : Consistent s) :
    Consistent (exec calls s) ∧
      (exec calls s).started = (s.started || calls.any Call.isDispatch) ∧
      (exec calls s).threads = s.threads := by
  induction calls generalizing s with
  | nil => exact ⟨h, by simp [exec], rfl⟩
  | cons c cs ih =>
    obtain ⟨h1, h2, h3⟩ := consistent_apply c s h
    obtain ⟨k1, k2, k3⟩ := ih (c.apply s) h1
    refine ⟨k1, ?_, by rw [← h3]; exact k3⟩
    show (exec cs (c.apply s)).started = _
    rw [k2, h2, List.any_cons, Bool.or_assoc]

/-- C6: constructing a `ThreadManager` of `N` threads performs no effect (no spawn)
and leaves `started = false`; destroying it without any dispatch leaves
`started = false` and performs no effect (no spawn, no barrier wait, no join); the
first `runAsync` or `run` sets `started = true` and spawns the workers `0, ..., N - 1`;
and after any sequence of calls, `started` holds exactly when a dispatch was among
them, the spawned workers being `0, ..., N - 1` once in that case and none otherwise. -/
theorem lazy_spawn (N : Nat) :
    ((construct N).started = false ∧ (construct N).effects = []) ∧
    ((destroy (construct N)).started = false ∧ (destroy (construct N)).effects = []) ∧
    (∀ f, (runAsync f (construct N)).started = true ∧
      spawned (runAsync f (construct N)) = List.range N) ∧
    (∀ f, (run f (construct N)).started = true ∧
      spawned (run f (construct N)) = List.range N) ∧
    (∀ calls : List Call,
      (exec calls (construct N)).started = calls.any Call.isDispatch ∧
      spawned (exec calls (construct N))
        = if calls.any Call.isDispatch then List.range N else []) := by
  have h0 : Consistent (construct N) := rfl
  refine ⟨⟨rfl, rfl⟩, ⟨rfl, rfl⟩, fun f => ?_, fun f => ?_, fun calls => ?_⟩
  · obtain ⟨h1, h2, h3⟩ := consistent_runAsync f (construct N) h0
    unfold Consistent at h1
    rw [h2, h3] at h1
    exact ⟨h2, h1⟩
  · obtain ⟨h1, h2, h3⟩ := consistent_apply (Call.run f) (construct N) h0
    unfold Consistent at h1
    rw [h2, h3] at h1
    exact ⟨h2, h1⟩
  · obtain ⟨h1, h2, h3⟩ := consistent_exec calls (construct N) h0
    unfold Consistent at h1
    rw [h2, h3] at h1
    exact ⟨h2, h1⟩

end ThreadManager

namespace TaskDistributor

/-! ## The source functions on 32-bit `int` -/

theorem wrap32_eq (x : Int) (h1 : INT_MIN ≤ x) (h2 : x ≤ INT_MAX) : wrap32 x = x := by
  unfold INT_MIN at h1
  unfold INT_MAX at h2
  unfold wrap32
  omega

theorem wrap32_range (x : Int) : INT_MIN ≤ wrap32 x ∧ wrap32 x ≤ INT_MAX := by
  unfold INT_MIN INT_MAX wrap32
  omega

/-- Size of the truncating quotient and remainder by a divisor `N ≥ 1`: both lie
between `0` and the dividend, and a positive remainder leaves room for `+ 1`. -/
theorem tdiv_tmod_range (m N : Int) (hN : 1 ≤ N) :
    (0 ≤ m → 0 ≤ m.tdiv N ∧ m.tdiv N ≤ m ∧ 0 ≤ m.tmod N ∧ m.tmod N ≤ m ∧
      (1 ≤ m.tmod N → m.tdiv N + 1 ≤ m)) ∧
    (m < 0 → m ≤ m.tdiv N ∧ m.tdiv N ≤ 0 ∧ m ≤ m.tmod N ∧ m.tmod N ≤ 0) := by
  constructor
  · intro hm
    obtain ⟨hq, hr, hq0, hr0, -, hdiv⟩ := tdiv_tmod_facts m N hm hN
    rw [hq, hr]
    have h : 0 ≤ (N - 1) * (m / N) := mul_nonneg (by omega) hq0
    have h2 : (N - 1) * (m / N) = N * (m / N) - m / N := by ring
    refine ⟨hq0, by omega, hr0, by omega, fun _ => by omega⟩
  · intro hm
    obtain ⟨hq, -, hq0, hr0, hrN, hdiv⟩ := tdiv_tmod_facts (-m) N (by omega) hN
    have e : m.tdiv N = -((-m) / N) := by
      rw [← hq, Int.neg_tdiv, neg_neg]
    have hsum := Int.tmod_add_tdiv m N
    rw [e] at hsum ⊢
    have h : 0 ≤ (N - 1) * ((-m) / N) := mul_nonneg (by omega) hq0
    have h2 : (N - 1) * ((-m) / N) = N * ((-m) / N) - (-m) / N := by ring
    have h3 : N * -((-m) / N) = -(N * ((-m) / N)) := by ring
    refine ⟨by omega, by omega, by omega, by omega⟩

/-- For a dividend `m` in the `int` range, `N ≥ 1` and `i ≥ 0`, the quotient, the
remainder and the final sum of `getDistributedSize` do not wrap. -/
theorem size32_core (i N m : Int) (hN : 1 ≤ N) (hi0 : 0 ≤ i) (hm1 : INT_MIN ≤ m)
    (hm2 : m ≤ INT_MAX) :
    wrap32 (wrap32 (m.tdiv N) + (if wrap32 (m.tmod N) > i then 1 else 0))
      = m.tdiv N + (if m.tmod N > i then 1 else 0) := by
  obtain ⟨hpos, hneg⟩ := tdiv_tmod_range m N hN
  have hq : wrap32 (m.tdiv N) = m.tdiv N := by
    apply wrap32_eq <;> rcases le_or_lt 0 m with h | h
    · have := hpos h; unfold INT_MIN; omega
    · have := hneg h; omega
    · have := hpos h; omega
    · have := hneg h; unfold INT_MAX; omega
  have hr : wrap32 (m.tmod N) = m.tmod N := by
    apply wrap32_eq <;> rcases le_or_lt 0 m with h | h
    · have := hpos h; unfold INT_MIN; omega
    · have := hneg h; omega
    · have := hpos h; omega
    · have := hneg h; unfold INT_MAX; omega
  rw [hq, hr]
  apply wrap32_eq <;> rcases le_or_lt 0 m with h | h
  · have := hpos h; unfold INT_MIN; split_ifs <;> omega
  · have := hneg h; split_ifs <;> omega
  · have := hpos h; split_ifs <;> omega
  · have := hneg h; unfold INT_MAX; split_ifs <;> omega

/-- For `N ≥ 1` and `i ≥ 0` only the computation of `n` can wrap in
`getDistributedSize`: the returned value is `n / N + ((n % N > i) ? 1 : 0)` for the
wrapped `n`. -/
theorem size32_val (i N first last : Int) (hN : 1 ≤ N) (hi0 : 0 ≤ i) :
    (getDistributedSize32 i N first last).1
      = (wrap32 (wrap32 (last - first) + 1)).tdiv N
        + (if (wrap32 (wrap32 (last - first) + 1)).tmod N > i then 1 else 0) := by
  obtain ⟨hm1, hm2⟩ := wrap32_range (wrap32 (last - first) + 1)
  exact size32_core i N _ hN hi0 hm1 hm2

end TaskDistributor

namespace TaskDistributor

/-! ## Agreement of the source functions with their exact-integer reading -/

/-- When `n = last - first + 1` is in `[0, INT_MAX]`, the source computes it exactly. -/
theorem n32_exact (first last : Int) (hn0 : 0 ≤ last - first + 1)
    (hn1 : last - first + 1 ≤ INT_MAX) :
    wrap32 (wrap32 (last - first) + 1) = last - first + 1 := by
  unfold INT_MAX at hn1
  have e1 : wrap32 (last - first) = last - first :=
    wrap32_eq _ (by unfold INT_MIN; omega) (by unfold INT_MAX; omega)
  rw [e1]
  exact wrap32_eq _ (by unfold INT_MIN; omega) (by unfold INT_MAX; omega)

/-- For `N ≥ 1`, `i ≥ 0` and `0 ≤ n ≤ INT_MAX` the size returned by the source is the
exact-integer one. -/
theorem size32_exact (i N first last : Int) (hN : 1 ≤ N) (hi0 : 0 ≤ i)
    (hn0 : 0 ≤ last - first + 1) (hn1 : last - first + 1 ≤ INT_MAX) :
    (getDistributedSize32 i N first last).1 = getDistributedSize i N first last := by
  rw [size32_val i N first last hN hi0, n32_exact first last hn0 hn1]
  rfl

/-- For `N ≥ 1`, `0 ≤ i < N` and `0 ≤ n ≤ INT_MAX` only the final `+ first` can wrap
in `getDistributedOffset`. -/
theorem offset32_wrap (i N first last : Int) (hN : 1 ≤ N) (hi0 : 0 ≤ i) (hiN : i < N)
    (hn0 : 0 ≤ last - first + 1) (hn1 : last - first + 1 ≤ INT_MAX) :
    (getDistributedOffset32 i N first last).1
      = wrap32 (getDistributedOffset i N first last) := by
  have e2 := n32_exact first last hn0 hn1
  have e1 : wrap32 (last - first) = last - first := by
    unfold INT_MAX at hn1
    exact wrap32_eq _ (by unfold INT_MIN; omega) (by unfold INT_MAX; omega)
  rw [e1] at e2
  unfold INT_MAX at hn1
  obtain ⟨hq, hr, hq0, hr0, hrN, hdiv⟩ := tdiv_tmod_facts (last - first + 1) N hn0 hN
  obtain ⟨hb1, hb2, -⟩ :=
    intermediates_bounds i N ((last - first + 1) / N) ((last - first + 1) % N) hi0 hiN
      hq0
  have e3 : wrap32 ((last - first + 1) / N) = (last - first + 1) / N :=
    wrap32_eq _ (by unfold INT_MIN; omega) (by unfold INT_MAX; omega)
  have e4 : wrap32 ((last - first + 1) % N) = (last - first + 1) % N :=
    wrap32_eq _ (by unfold INT_MIN; omega) (by unfold INT_MAX; omega)
  have e5 : wrap32 ((last - first + 1) / N * i) = (last - first + 1) / N * i :=
    wrap32_eq _ (by unfold INT_MIN; omega) (by unfold INT_MAX; omega)
  have e6 : wrap32 ((last - first + 1) / N * i
        + (if (last - first + 1) % N > i then i else (last - first + 1) % N))
      = (last - first + 1) / N * i
        + (if (last - first + 1) % N > i then i else (last - first + 1) % N) :=
    wrap32_eq _ (by unfold INT_MIN; split_ifs <;> omega)
      (by unfold INT_MAX; split_ifs <;> omega)
  simp only [getDistributedOffset32, getDistributedOffset, arith32, e1, e2, hq, hr, e3,
    e4, e5, e6]

theorem offset_ge_first (i N first last : Int) (hN : 1 ≤ N) (hn : first - 1 ≤ last)
    (hi0 : 0 ≤ i) : first ≤ getDistributedOffset i N first last := by
  have h := offset_mono 0 i N first last hN hn hi0
  rw [offset_zero N first last hN hn] at h
  exact h

/-- The offset returned by the source is the exact-integer one when that one fits. -/
theorem offset32_exact (i N first last : Int) (hN : 1 ≤ N) (hi0 : 0 ≤ i) (hiN : i < N)
    (hn0 : 0 ≤ last - first + 1) (hn1 : last - first + 1 ≤ INT_MAX)
    (hf1 : INT_MIN ≤ first) (hle : getDistributedOffset i N first last ≤ INT_MAX) :
    (getDistributedOffset32 i N first last).1 = getDistributedOffset i N first last := by
  rw [offset32_wrap i N first last hN hi0 hiN hn0 hn1]
  have h := offset_ge_first i N first last hN (by omega) hi0
  exact wrap32_eq _ (le_trans hf1 h) hle

/-- The exact offsets of the shards `0, ..., N - 1` fit in an `int` unless
`last = INT_MAX` and the domain has fewer than `N` elements. -/
theorem offset_le_max (k N first last : Int) (hN : 1 ≤ N) (hn : first - 1 ≤ last)
    (hk : k ≤ N - 1) (hl2 : last ≤ INT_MAX)
    (hdom : last < INT_MAX ∨ N ≤ last - first + 1) :
    getDistributedOffset k N first last ≤ INT_MAX := by
  rcases hdom with h | h
  · have h1 := offset_mono k N N first last hN hn (by omega)
    rw [offset_last N first last hN hn] at h1
    omega
  · have h1 := offset_mono k (N - 1) N first last hN hn hk
    have h2 := offset_succ (N - 1) N first last
    rw [sub_add_cancel, offset_last N first last hN hn] at h2
    have hq : 1 ≤ (last - first + 1) / N :=
      Int.le_ediv_of_mul_le (by omega) (by omega)
    have h3 := size_eq (N - 1) N first last hN hn
    have h4 : 1 ≤ getDistributedSize (N - 1) N first last := by
      rw [h3]; split_ifs <;> omega
    omega

end TaskDistributor

namespace TaskDistributor

/-! ## Balance of the shard sizes -/

/-- C3: for `N ≥ 1`, `last ≥ first - 1` and worker indices `i`, `j` in `[0, N)`, the
sizes the source returns for shards `i` and `j` (32-bit `int`, wrapping included)
differ by at most `1`, and the size is non-increasing in the index: `i ≤ j` implies
`size(i) ≥ size(j)`. -/
theorem getDistributedSize_balanced (i j N first last : Int) (hN : N ≥ 1)
    (hn : last ≥ first - 1) (hi0 : 0 ≤ i) (hiN : i < N) (hj0 : 0 ≤ j) (hjN : j < N) :
    |(getDistributedSize32 i N first last).1 - (getDistributedSize32 j N first last).1| ≤ 1 ∧
    (i ≤ j →
      (getDistributedSize32 i N first last).1 ≥ (getDistributedSize32 j N first last).1) := by
  have _h := And.intro hn (And.intro hiN hjN)
  rw [size32_val i N first last hN hi0, size32_val j N first last hN hj0, abs_le]
  generalize (wrap32 (wrap32 (last - first) + 1)).tdiv N = q
  generalize (wrap32 (wrap32 (last - first) + 1)).tmod N = r
  refine ⟨?_, fun hij => ?_⟩ <;> split_ifs <;> omega

theorem getDistributedSize_balanced_witness :
    (2 : Int) ≥ 1 ∧ (2147483647 : Int) ≥ -1 - 1 ∧ (0 : Int) ≤ 0 ∧ (0 : Int) < 2 ∧
    (0 : Int) ≤ 1 ∧ (1 : Int) < 2 ∧
    (|(getDistributedSize32 0 2 (-1) 2147483647).1
        - (getDistributedSize32 1 2 (-1) 2147483647).1| ≤ 1 ∧
     ((0 : Int) ≤ 1 →
       (getDistributedSize32 0 2 (-1) 2147483647).1
         ≥ (getDistributedSize32 1 2 (-1) 2147483647).1)) :=
  ⟨by decide, by decide, by decide, by decide, by decide, by decide,
    getDistributedSize_balanced 0 1 2 (-1) 2147483647 (by decide) (by decide) (by decide)
      (by decide) (by decide) (by decide)⟩

/-! ## The closed formulas on the source -/

/-- C7 fails as stated: at `i = 0`, `N = 2`, `first = -1`, `last = 2147483647` (all
hypotheses of the claim hold and the arguments are `int`s) `n = 2^31 + 1` does not fit
in an `int`; the source returns `-1073741823`, the formula gives `1073741825`. -/
theorem getDistributedSize_formula_counterexample :
    (2 : Int) ≥ 1 ∧ (2147483647 : Int) ≥ -1 - 1 ∧ (0 : Int) ≤ 0 ∧ (0 : Int) < 2 ∧
    INT_MIN ≤ -1 ∧ (2147483647 : Int) ≤ INT_MAX ∧
    (getDistributedSize32 0 2 (-1) 2147483647).1 = -1073741823 ∧
    Int.fdiv (2147483647 - -1 + 1) 2
      + (if (0 : Int) < Int.fmod (2147483647 - -1 + 1) 2 then 1 else 0) = 1073741825 ∧
    (getDistributedSize32 0 2 (-1) 2147483647).1
      ≠ Int.fdiv (2147483647 - -1 + 1) 2
        + (if (0 : Int) < Int.fmod (2147483647 - -1 + 1) 2 then 1 else 0) := by
  decide

/-- C7, amended: for `N ≥ 1`, `last ≥ first - 1` with `n = last - first + 1 ≤ INT_MAX`
and `0 ≤ i < N`, the source's `getDistributedSize` returns `⌊n / N⌋ + 1` when
`i < n mod N` and `⌊n / N⌋` otherwise (floor division and floor modulus). -/
theorem getDistributedSize_formula (i N first last : Int) (hN : N ≥ 1)
    (hn : last ≥ first - 1) (hn1 : last - first + 1 ≤ INT_MAX) (hi0 : 0 ≤ i)
    (hiN : i < N) :
    (getDistributedSize32 i N first last).1
      = Int.fdiv (last - first + 1) N
          + (if i < Int.fmod (last - first + 1) N then 1 else 0) := by
  rw [size32_exact i N first last hN hi0 (by omega) hn1]
  exact exact_size_formula i N first last hN hn hi0 hiN

theorem getDistributedSize_formula_witness :
    (3 : Int) ≥ 1 ∧ (2147483646 : Int) ≥ 0 - 1 ∧ (2147483646 : Int) - 0 + 1 ≤ INT_MAX ∧
    (0 : Int) ≤ 0 ∧ (0 : Int) < 3 ∧
    (getDistributedSize32 0 3 0 2147483646).1
      = Int.fdiv (2147483646 - 0 + 1) 3
          + (if (0 : Int) < Int.fmod (2147483646 - 0 + 1) 3 then 1 else 0) :=
  ⟨by decide, by decide, by decide, by decide, by decide,
    getDistributedSize_formula 0 3 0 2147483646 (by decide) (by decide) (by decide)
      (by decide) (by decide)⟩

/-- C8 fails as stated: at `i = 1`, `N = 2`, `first = last = 2147483647` (all
hypotheses of the claim hold and the arguments are `int`s) the final `+ first` wraps;
the source returns `-2147483648`, the formula gives `2147483648`. -/
theorem getDistributedOffset_formula_counterexample :
    (2 : Int) ≥ 1 ∧ (2147483647 : Int) ≥ 2147483647 - 1 ∧ (0 : Int) ≤ 1 ∧ (1 : Int) < 2 ∧
    INT_MIN ≤ 2147483647 ∧ (2147483647 : Int) ≤ INT_MAX ∧
    (getDistributedOffset32 1 2 2147483647 2147483647).1 = -2147483648 ∧
    Int.fdiv (2147483647 - 2147483647 + 1) 2 * 1
      + min 1 (Int.fmod (2147483647 - 2147483647 + 1) 2) + 2147483647 = 2147483648 ∧
    (getDistributedOffset32 1 2 2147483647 2147483647).1
      ≠ Int.fdiv (2147483647 - 2147483647 + 1) 2 * 1
        + min 1 (Int.fmod (2147483647 - 2147483647 + 1) 2) + 2147483647 := by
  decide

/-- C8, amended: for `N ≥ 1`, `first ≥ INT_MIN`, `last ≥ first - 1` with
`n = last - first + 1 ≤ INT_MAX` and `0 ≤ i < N`, the source's `getDistributedOffset`
returns `⌊n / N⌋ * i + min i (n mod N) + first` exactly when that value is at most
`INT_MAX`, which is the case whenever `last < INT_MAX`. -/
theorem getDistributedOffset_formula (i N first last : Int) (hN : N ≥ 1)
    (hf1 : INT_MIN ≤ first) (hn : last ≥ first - 1) (hn1 : last - first + 1 ≤ INT_MAX)
    (hi0 : 0 ≤ i) (hiN : i < N) :
    ((getDistributedOffset32 i N first last).1
        = Int.fdiv (last - first + 1) N * i + min i (Int.fmod (last - first + 1) N) + first
      ↔ Int.fdiv (last - first + 1) N * i + min i (Int.fmod (last - first + 1) N) + first
          ≤ INT_MAX) ∧
    (last < INT_MAX →
      (getDistributedOffset32 i N first last).1
        = Int.fdiv (last - first + 1) N * i + min i (Int.fmod (last - first + 1) N)
            + first) := by
  have hF := exact_offset_formula i N first last hN hn hi0 hiN
  rw [← hF]
  have hiff : (getDistributedOffset32 i N first last).1 = getDistributedOffset i N first last
      ↔ getDistributedOffset i N first last ≤ INT_MAX := by
    constructor
    · intro h
      rw [← h, offset32_wrap i N first last hN hi0 hiN (by omega) hn1]
      exact (wrap32_range _).2
    · exact offset32_exact i N first last hN hi0 hiN (by omega) hn1 hf1
  refine ⟨hiff, fun hl => hiff.2 ?_⟩
  unfold INT_MAX at hl
  exact offset_le_max i N first last hN (by omega) (by omega) (by unfold INT_MAX; omega)
    (Or.inl (by unfold INT_MAX; omega))

theorem getDistributedOffset_formula_witness :
    (5 : Int) ≥ 1 ∧ INT_MIN ≤ 10 ∧ (10 : Int) ≥ 10 - 1 ∧ (10 : Int) - 10 + 1 ≤ INT_MAX ∧
    (0 : Int) ≤ 3 ∧ (3 : Int) < 5 ∧
    (((getDistributedOffset32 3 5 10 10).1
        = Int.fdiv (10 - 10 + 1) 5 * 3 + min 3 (Int.fmod (10 - 10 + 1) 5) + 10
      ↔ Int.fdiv (10 - 10 + 1) 5 * 3 + min 3 (Int.fmod (10 - 10 + 1) 5) + 10 ≤ INT_MAX) ∧
    ((10 : Int) < INT_MAX →
      (getDistributedOffset32 3 5 10 10).1
        = Int.fdiv (10 - 10 + 1) 5 * 3 + min 3 (Int.fmod (10 - 10 + 1) 5) + 10)) :=
  ⟨by decide, by decide, by decide, by decide, by decide, by decide,
    getDistributedOffset_formula 3 5 10 10 (by decide) (by decide) (by decide) (by decide)
      (by decide) (by decide)⟩

end TaskDistributor

namespace TaskDistributor

/-! ## The round-trip law on the source -/

/-- C2 fails as stated: at `N = 3`, `first = last = 2147483647`, `i = 0` (all
hypotheses of the claim hold and the arguments are `int`s) the source returns
`offset(0) = 2147483647`, `size(0) = 1` and `offset(1) = -2147483648`, so
`offset(0) + size(0) ≠ offset(1)`. -/
theorem offset_add_size_counterexample :
    (3 : Int) ≥ 1 ∧ (2147483647 : Int) ≥ 2147483647 - 1 ∧ (0 : Int) ≤ 0 ∧
    (0 : Int) < 3 - 1 ∧ INT_MIN ≤ 2147483647 ∧ (2147483647 : Int) ≤ INT_MAX ∧
    (getDistributedOffset32 0 3 2147483647 2147483647).1 = 2147483647 ∧
    (getDistributedSize32 0 3 2147483647 2147483647).1 = 1 ∧
    (getDistributedOffset32 (0 + 1) 3 2147483647 2147483647).1 = -2147483648 ∧
    (getDistributedOffset32 0 3 2147483647 2147483647).1
        + (getDistributedSize32 0 3 2147483647 2147483647).1
      ≠ (getDistributedOffset32 (0 + 1) 3 2147483647 2147483647).1 := by
  decide

/-- C2, amended: for `N ≥ 1`, `first ≥ INT_MIN`, `last ≤ INT_MAX`, `last ≥ first - 1`
with `n = last - first + 1 ≤ INT_MAX`, and `last < INT_MAX` or `n ≥ N`, the values the
source returns satisfy `offset(i) + size(i) = offset(i + 1)` for every `i` in
`[0, N - 1)` and `offset(N - 1) + size(N - 1) = last + 1`. -/
theorem offset_add_size (N first last : Int) (hN : N ≥ 1) (hf1 : INT_MIN ≤ first)
    (hl2 : last ≤ INT_MAX) (hn : last ≥ first - 1) (hn1 : last - first + 1 ≤ INT_MAX)
    (hdom : last < INT_MAX ∨ N ≤ last - first + 1) :
    (∀ i : Int, 0 ≤ i → i < N - 1 →
      (getDistributedOffset32 i N first last).1 + (getDistributedSize32 i N first last).1
        = (getDistributedOffset32 (i + 1) N first last).1) ∧
    (getDistributedOffset32 (N - 1) N first last).1
        + (getDistributedSize32 (N - 1) N first last).1
      = last + 1 := by
  have hN1 : 1 ≤ N := hN
  have hn' : first - 1 ≤ last := hn
  have hn0 : 0 ≤ last - first + 1 := by omega
  have hoff : ∀ k : Int, 0 ≤ k → k ≤ N - 1 →
      (getDistributedOffset32 k N first last).1 = getDistributedOffset k N first last :=
    fun k hk0 hk => offset32_exact k N first last hN1 hk0 (by omega) hn0 hn1 hf1
      (offset_le_max k N first last hN1 hn' hk hl2 hdom)
  obtain ⟨h1, h2⟩ := exact_round_trip N first last hN hn
  constructor
  · intro i hi0 hiN
    rw [hoff i hi0 (by omega), hoff (i + 1) (by omega) (by omega),
      size32_exact i N first last hN1 hi0 hn0 hn1]
    exact h1 i hi0 hiN
  · rw [hoff (N - 1) (by omega) (le_refl _),
      size32_exact (N - 1) N first last hN1 (by omega) hn0 hn1]
    exact h2

theorem offset_add_size_witness :
    (3 : Int) ≥ 1 ∧ INT_MIN ≤ 2147483638 ∧ (2147483647 : Int) ≤ INT_MAX ∧
    (2147483647 : Int) ≥ 2147483638 - 1 ∧ (2147483647 : Int) - 2147483638 + 1 ≤ INT_MAX ∧
    ((2147483647 : Int) < INT_MAX ∨ (3 : Int) ≤ 2147483647 - 2147483638 + 1) ∧
    ((∀ i : Int, 0 ≤ i → i < 3 - 1 →
      (getDistributedOffset32 i 3 2147483638 2147483647).1
          + (getDistributedSize32 i 3 2147483638 2147483647).1
        = (getDistributedOffset32 (i + 1) 3 2147483638 2147483647).1) ∧
    (getDistributedOffset32 (3 - 1) 3 2147483638 2147483647).1
        + (getDistributedSize32 (3 - 1) 3 2147483638 2147483647).1
      = 2147483647 + 1) :=
  ⟨by decide, by decide, by decide, by decide, by decide, by decide,
    offset_add_size 3 2147483638 2147483647 (by decide) (by decide) (by decide)
      (by decide) (by decide) (by decide)⟩

/-! ## The shards of the source partition the domain -/

/-- For `0 ≤ i < N`, `first ≥ INT_MIN`, `last ≤ INT_MAX` and `0 ≤ n ≤ INT_MAX`, shard
`i` of the source holds the same integers as shard `i` of the exact-integer reading:
an offset that wraps belongs to a shard of size `0`. -/
theorem inShard32_iff (x i N first last : Int) (hN : 1 ≤ N) (hi0 : 0 ≤ i) (hiN : i < N)
    (hf1 : INT_MIN ≤ first) (hl2 : last ≤ INT_MAX) (hn0 : 0 ≤ last - first + 1)
    (hn1 : last - first + 1 ≤ INT_MAX) :
    inShard32 x i N first last ↔ inShard x i N first last := by
  have hn : first - 1 ≤ last := by omega
  unfold inShard32 inShard
  rw [size32_exact i N first last hN hi0 hn0 hn1]
  by_cases hle : getDistributedOffset i N first last ≤ INT_MAX
  · rw [offset32_exact i N first last hN hi0 hiN hn0 hn1 hf1 hle]
  · have h1 := offset_mono (i + 1) N N first last hN hn (by omega)
    rw [offset_last N first last hN hn, offset_succ] at h1
    have h2 := size_nonneg i N first last hN hn
    have h3 : getDistributedSize i N first last = 0 := by omega
    rw [h3]
    constructor <;> rintro ⟨_, _⟩ <;> omega

/-- C1 fails as stated: at `N = 2`, `first = -1`, `last = 2147483647` (the hypotheses
of the claim hold and the arguments are `int`s) `n = 2^31 + 1` does not fit in an
`int`, both shards of the source are empty, and `x = 0` of `[first, last]` lies in no
shard. -/
theorem shards_partition_counterexample :
    (2 : Int) ≥ 1 ∧ (2147483647 : Int) ≥ -1 - 1 ∧ INT_MIN ≤ -1 ∧
    (2147483647 : Int) ≤ INT_MAX ∧ (-1 : Int) ≤ 0 ∧ (0 : Int) ≤ 2147483647 ∧
    ¬ ∃ i : Int, 0 ≤ i ∧ i < 2 ∧ inShard32 0 i 2 (-1) 2147483647 := by
  refine ⟨by decide, by decide, by decide, by decide, by decide, by decide, ?_⟩
  rintro ⟨i, hi0, hi2, h⟩
  have hcases : i = 0 ∨ i = 1 := by omega
  rcases hcases with rfl | rfl
  · revert h; decide
  · revert h; decide

/-- C1, amended: for `N ≥ 1`, `first ≥ INT_MIN`, `last ≤ INT_MAX` and
`last ≥ first - 1` with `n = last - first + 1 ≤ INT_MAX`, the `N` shards
`[offset(i), offset(i) + size(i) - 1]`, `0 ≤ i < N`, of the values the source returns
partition the integers of `[first, last]`: every `x` with `first ≤ x ≤ last` lies in
exactly one shard, no shard contains an integer outside `[first, last]`, and distinct
shards are disjoint. -/
theorem shards_partition (N first last : Int) (hN : N ≥ 1) (hf1 : INT_MIN ≤ first)
    (hl2 : last ≤ INT_MAX) (hn : last ≥ first - 1) (hn1 : last - first + 1 ≤ INT_MAX) :
    (∀ x : Int, first ≤ x → x ≤ last →
      ∃! i : Int, 0 ≤ i ∧ i < N ∧ inShard32 x i N first last) ∧
    (∀ i x : Int, 0 ≤ i → i < N → inShard32 x i N first last → first ≤ x ∧ x ≤ last) ∧
    (∀ i j x : Int, 0 ≤ i → i < N → 0 ≤ j → j < N → i ≠ j →
      ¬ (inShard32 x i N first last ∧ inShard32 x j N first last)) := by
  have hiff : ∀ x i : Int, 0 ≤ i → i < N →
      (inShard32 x i N first last ↔ inShard x i N first last) :=
    fun x i hi0 hiN => inShard32_iff x i N first last hN hi0 hiN hf1 hl2 (by omega) hn1
  obtain ⟨h1, h2, h3⟩ := exact_partition N first last hN hn
  refine ⟨fun x hx1 hx2 => ?_, fun i x hi0 hiN hi => ?_, fun i j x hi0 hiN hj0 hjN hij h => ?_⟩
  · obtain ⟨i, ⟨hi0, hiN, hi⟩, huniq⟩ := h1 x hx1 hx2
    refine ⟨i, ⟨hi0, hiN, (hiff x i hi0 hiN).2 hi⟩, fun j hj => ?_⟩
    obtain ⟨hj0, hjN, hj⟩ := hj
    exact huniq j ⟨hj0, hjN, (hiff x j hj0 hjN).1 hj⟩
  · exact h2 i x hi0 hiN ((hiff x i hi0 hiN).1 hi)
  · exact h3 i j x hi0 hiN hj0 hjN hij
      ⟨(hiff x i hi0 hiN).1 h.1, (hiff x j hj0 hjN).1 h.2⟩

theorem shards_partition_witness :
    (5 : Int) ≥ 1 ∧ INT_MIN ≤ 2147483646 ∧ (2147483647 : Int) ≤ INT_MAX ∧
    (2147483647 : Int) ≥ 2147483646 - 1 ∧ (2147483647 : Int) - 2147483646 + 1 ≤ INT_MAX ∧
    ((∀ x : Int, 2147483646 ≤ x → x ≤ 2147483647 →
      ∃! i : Int, 0 ≤ i ∧ i < 5 ∧ inShard32 x i 5 2147483646 2147483647) ∧
     (∀ i x : Int, 0 ≤ i → i < 5 → inShard32 x i 5 2147483646 2147483647 →
       2147483646 ≤ x ∧ x ≤ 2147483647) ∧
     (∀ i j x : Int, 0 ≤ i → i < 5 → 0 ≤ j → j < 5 → i ≠ j →
       ¬ (inShard32 x i 5 2147483646 2147483647 ∧ inShard32 x j 5 2147483646 2147483647))) :=
  ⟨by decide, by decide, by decide, by decide, by decide,
    shards_partition 5 2147483646 2147483647 (by decide) (by decide) (by decide)
      (by decide) (by decide)⟩

end TaskDistributor
